import Mathlib

/-!
Verification of the trpc-agent-go-extensions core against its specification.

Shallow embedding conventions:
* Go `int` is modelled as `Int` (the claims never depend on 64-bit overflow);
* Go `string` is modelled as `String` where only equality matters and as
  `List Char` where the code inspects the characters (substring scans,
  prefix checks, template substitution);
* Go `float64` ratios/thresholds are modelled as `ℚ` (the claims speak of
  exact ratio comparisons, not of rounding);
* fallible Go functions returning `(T, error)` are modelled with
  `Except`/`Option`; calls into the external LLM transport are abstracted
  as an `Option`-valued argument (the summarisation result, `none` = error).
-/

/-! ### Token monitor (pkg/token/monitor.go) -/

/-- `TokenUsage` from token/monitor.go (model/timestamp/duration omitted:
no claim inspects them). -/
structure TokenUsage where
  turnNumber : Int
  promptTokens : Int
  completionTokens : Int
  totalTokens : Int
  deriving Repr, DecidableEq

/-- History cap `maxUsageHistory` from token/monitor.go. -/
def maxUsageHistory : Nat := 1000

/-- `Monitor` state from token/monitor.go (mutex dropped: single-threaded
shallow embedding). -/
structure Monitor where
  maxTokens : Int
  totalPromptTokens : Int
  totalCompletionTokens : Int
  totalTokens : Int
  turnCount : Int
  usageHistory : List TokenUsage
  warningThreshold : ℚ
  pendingUpdate : Bool
  deriving Repr, DecidableEq

/-- `NewMonitor` from token/monitor.go. -/
def newMonitor (maxTokens : Int) : Monitor :=
  { maxTokens := maxTokens
    totalPromptTokens := 0
    totalCompletionTokens := 0
    totalTokens := 0
    turnCount := 0
    usageHistory := []
    warningThreshold := 8/10
    pendingUpdate := false }

/-- `Monitor.RecordUsage` from token/monitor.go. -/
def recordUsage (tm : Monitor) (usage : TokenUsage) : Monitor :=
  let totalPromptTokens := tm.totalPromptTokens + usage.promptTokens
  let totalCompletionTokens := tm.totalCompletionTokens + usage.completionTokens
  let totalTokens := tm.totalTokens + usage.totalTokens
  let turnCount := tm.turnCount + 1
  let usageHistory := tm.usageHistory ++ [{ usage with turnNumber := turnCount }]
  let usageHistory :=
    if usageHistory.length > maxUsageHistory then
      usageHistory.drop (usageHistory.length - maxUsageHistory)
    else usageHistory
  { tm with
      totalPromptTokens := totalPromptTokens
      totalCompletionTokens := totalCompletionTokens
      totalTokens := totalTokens
      turnCount := turnCount
      usageHistory := usageHistory }

/-- `Monitor.OnCompression` from token/monitor.go. -/
def onCompression (tm : Monitor) (beforeTokens afterTokens : Int) : Monitor :=
  let saved := beforeTokens - afterTokens
  if saved ≤ 0 then tm
  else
    let totalPromptTokens := tm.totalPromptTokens - saved
    let totalPromptTokens := if totalPromptTokens < 0 then 0 else totalPromptTokens
    let totalTokens := tm.totalTokens - saved
    let totalTokens := if totalTokens < 0 then 0 else totalTokens
    { tm with
      totalPromptTokens := totalPromptTokens
      totalTokens := totalTokens
      pendingUpdate := true }

/-! ### Summary-message helpers (pkg/memory, summary helpers file) -/

/-- Message roles from the trpc-agent-go model package, as used by the
compressor and summary helpers. -/
inductive Role where
  | system
  | user
  | assistant
  | tool
  deriving Repr, DecidableEq

/-- A chat message: role plus content.  Content is a character list so the
summary-prefix check and compression partition can be stated. -/
structure Message where
  role : Role
  content : List Char
  deriving Repr, DecidableEq

/-- `SummaryPrefix` constant from the summary helpers file. -/
def summaryPrefixStr : List Char := "[上下文摘要 — 以下是之前对话的压缩总结]\n".toList

/-- `IsSummaryMessage` from the summary helpers file. -/
def isSummaryMessage (content : List Char) : Bool :=
  "[上下文摘要".toList.isPrefixOf content

/-- `FormatSummaryMessage` from the summary helpers file. -/
def formatSummaryMessage (summary : List Char) : Message :=
  { role := Role.system, content := summaryPrefixStr ++ summary }

/-! ### C1 and C10 theorems -/

/-- **C1 counterexample.** The claim quantifies over *every* `RecordUsage`
sequence and *every* pair `(b, a)`.  Both parts fail on the code:
a usage record with `TotalTokens ≠ PromptTokens + CompletionTokens`
breaks the cumulative identity, and `OnCompression` with `b − a ≤ 0`
returns early without touching the state or setting `pendingUpdate`
(while the claim demands the flag be set and, for `b < a`, the total
to grow to `max(total − (b−a), 0)`). -/
theorem c1_counterexample :
    (let m := recordUsage (newMonitor 1000)
      { turnNumber := 0, promptTokens := 1, completionTokens := 1, totalTokens := 5 }
     m.totalTokens ≠ m.totalPromptTokens + m.totalCompletionTokens)
    ∧ (onCompression (newMonitor 1000) 1 1).pendingUpdate = false
    ∧ (onCompression (newMonitor 1000) 0 1).totalTokens
        ≠ max ((newMonitor 1000).totalTokens - (0 - 1)) 0 := by
  refine ⟨by decide, by decide, by decide⟩

/-- **C1 (amended).** (a) For every sequence of `RecordUsage` calls on a
fresh monitor in which each usage record satisfies
`TotalTokens = PromptTokens + CompletionTokens`, the cumulative
`totalTokens` equals cumulative `totalPromptTokens` plus cumulative
`totalCompletionTokens`.  (b) When `b − a > 0`, `OnCompression(b, a)`
sets `totalTokens` to `max(totalTokens − (b−a), 0)`, clamps
`totalPromptTokens` the same way, leaves `totalCompletionTokens`
untouched and sets `pendingUpdate`.  (c) When `b − a ≤ 0`,
`OnCompression(b, a)` leaves the monitor unchanged (in particular it
does not set `pendingUpdate`). -/
theorem monitor_cumulative_identity_and_compression :
    (∀ (mx : Int) (usages : List TokenUsage),
      (∀ u ∈ usages, u.totalTokens = u.promptTokens + u.completionTokens) →
      (usages.foldl recordUsage (newMonitor mx)).totalTokens =
        (usages.foldl recordUsage (newMonitor mx)).totalPromptTokens +
        (usages.foldl recordUsage (newMonitor mx)).totalCompletionTokens)
    ∧ (∀ (m : Monitor) (b a : Int), b - a > 0 →
        onCompression m b a =
          { m with
            totalPromptTokens := max (m.totalPromptTokens - (b - a)) 0
            totalTokens := max (m.totalTokens - (b - a)) 0
            pendingUpdate := true })
    ∧ (∀ (m : Monitor) (b a : Int), b - a ≤ 0 → onCompression m b a = m) := by
  refine ⟨?_, ?_, ?_⟩
  · intro mx usages h
    suffices hgen : ∀ (m : Monitor),
        m.totalTokens = m.totalPromptTokens + m.totalCompletionTokens →
        (usages.foldl recordUsage m).totalTokens =
          (usages.foldl recordUsage m).totalPromptTokens +
          (usages.foldl recordUsage m).totalCompletionTokens by
      exact hgen (newMonitor mx) (by simp [newMonitor])
    induction usages with
    | nil => intro m hm; simpa using hm
    | cons u rest ih =>
      intro m hm
      have hu : u.totalTokens = u.promptTokens + u.completionTokens :=
        h u (List.mem_cons_self u rest)
      have hrest : ∀ v ∈ rest, v.totalTokens = v.promptTokens + v.completionTokens :=
        fun v hv => h v (List.mem_cons_of_mem u hv)
      have ih2 := ih hrest
      simp only [List.foldl_cons]
      apply ih2
      simp only [recordUsage]
      omega
  · intro m b a hba
    simp only [onCompression]
    rw [if_neg (by omega)]
    have h1 : (if m.totalPromptTokens - (b - a) < 0 then 0
        else m.totalPromptTokens - (b - a)) = max (m.totalPromptTokens - (b - a)) 0 := by
      split <;> omega
    have h2 : (if m.totalTokens - (b - a) < 0 then 0
        else m.totalTokens - (b - a)) = max (m.totalTokens - (b - a)) 0 := by
      split <;> omega
    rw [h1, h2]
  · intro m b a hba
    simp only [onCompression]
    rw [if_pos (by omega)]

/-- Witness for the amended C1 theorem at concrete inputs. -/
theorem monitor_cumulative_identity_and_compression_witness :
    ((List.foldl recordUsage (newMonitor 100)
        [{ turnNumber := 0, promptTokens := 2, completionTokens := 3, totalTokens := 5 }]).totalTokens =
      (List.foldl recordUsage (newMonitor 100)
        [{ turnNumber := 0, promptTokens := 2, completionTokens := 3, totalTokens := 5 }]).totalPromptTokens +
      (List.foldl recordUsage (newMonitor 100)
        [{ turnNumber := 0, promptTokens := 2, completionTokens := 3, totalTokens := 5 }]).totalCompletionTokens)
    ∧ onCompression (newMonitor 100) 5 2 =
        { newMonitor 100 with
          totalPromptTokens := max ((newMonitor 100).totalPromptTokens - (5 - 2)) 0
          totalTokens := max ((newMonitor 100).totalTokens - (5 - 2)) 0
          pendingUpdate := true }
    ∧ onCompression (newMonitor 100) 2 2 = newMonitor 100 := by
  refine ⟨monitor_cumulative_identity_and_compression.1 100 _ (by decide),
    monitor_cumulative_identity_and_compression.2.1 (newMonitor 100) 5 2 (by decide),
    monitor_cumulative_identity_and_compression.2.2 (newMonitor 100) 2 2 (by decide)⟩

/-- **C10.** Round trip of the summary helpers: for every summary `s`,
`FormatSummaryMessage s` is a system-role message, its content begins
with `SummaryPrefix`, and `IsSummaryMessage` recognises that content —
so a summary message produced by one compression pass is recognised
(and dropped, not duplicated) by the next pass. -/
theorem format_summary_roundtrip (s : List Char) :
    (formatSummaryMessage s).role = Role.system
    ∧ summaryPrefixStr.IsPrefix (formatSummaryMessage s).content
    ∧ isSummaryMessage (formatSummaryMessage s).content = true := by
  refine ⟨rfl, ⟨s, rfl⟩, ?_⟩
  have hshort : "[上下文摘要".toList.IsPrefix summaryPrefixStr := by decide
  have : "[上下文摘要".toList.IsPrefix (summaryPrefixStr ++ s) :=
    hshort.trans (List.prefix_append summaryPrefixStr s)
  simpa [isSummaryMessage, formatSummaryMessage, List.isPrefixOf_iff_prefix] using this

/-! ### Template renderer (pkg/pipeline/render.go) -/

/-- `strings.ReplaceAll` on character lists, fuel-indexed for structural
recursion.  The fuel starts at the string length; each step either
consumes one character or (on a match of the non-empty pattern) at
least one, so the `0, s => s` arm is never reached from `replaceAll`. -/
def replaceAllGo (pat rep : List Char) : Nat → List Char → List Char
  | _, [] => []
  | 0, s => s
  | fuel + 1, c :: rest =>
    if pat.isPrefixOf (c :: rest) then
      rep ++ replaceAllGo pat rep fuel ((c :: rest).drop pat.length)
    else
      c :: replaceAllGo pat rep fuel rest

/-- `strings.ReplaceAll(s, pat, rep)`: replaces non-overlapping matches
left to right; an empty pattern matches before every character and at
the end. -/
def replaceAll (s pat rep : List Char) : List Char :=
  if pat = [] then rep ++ s.flatMap (fun c => c :: rep)
  else replaceAllGo pat rep s.length s

/-- The `"\x7b\x7b" + key + "\x7d\x7d"` placeholder built in `RenderTemplate`. -/
def placeholder (key : List Char) : List Char :=
  '\x7b' :: '\x7b' :: (key ++ ['\x7d', '\x7d'])

/-- `RenderTemplate` from pipeline/render.go.  Go iterates the `vars` map
in unspecified order; the embedding takes the iteration order as an
explicit association list. -/
def renderTemplate (content : List Char) (vars : List (List Char × List Char)) : List Char :=
  if content = [] ∨ vars = [] then content
  else vars.foldl (fun rendered kv => replaceAll rendered (placeholder kv.1) kv.2) content

theorem placeholder_ne_nil (key : List Char) : placeholder key ≠ [] := by
  simp [placeholder]

theorem replaceAll_nil (pat rep : List Char) (h : pat ≠ []) : replaceAll [] pat rep = [] := by
  simp [replaceAll, h, replaceAllGo]

theorem renderFold_nil (B : List (List Char × List Char)) :
    B.foldl (fun rendered kv => replaceAll rendered (placeholder kv.1) kv.2) [] = [] := by
  induction B with
  | nil => rfl
  | cons kv rest ih =>
    simp only [List.foldl_cons, replaceAll_nil _ _ (placeholder_ne_nil kv.1)]
    exact ih

/-- **C2 counterexample.** With `A = {a ↦ "\x7b\x7bb\x7d\x7d"}` and
`B = {b ↦ "z"}` (disjoint keys) and content `"\x7b\x7ba\x7d\x7d"`,
iterating the union in the order B-then-A — a legal Go map iteration
order of `A ∪ B` — renders `"\x7b\x7bb\x7d\x7d"`, while rendering with
`A` then `B` gives `"z"`; the two enumeration orders of the very same
map also disagree with each other, refuting determinism over `(content,
vars-as-map)`. -/
theorem c2_counterexample :
    (∀ k ∈ ([(['a'], placeholder ['b'])] : List (List Char × List Char)).map Prod.fst,
      ∀ k2 ∈ ([(['b'], ['z'])] : List (List Char × List Char)).map Prod.fst, k ≠ k2)
    ∧ List.Perm ([(['b'], ['z'])] ++ [(['a'], placeholder ['b'])])
        ([(['a'], placeholder ['b'])] ++ [(['b'], ['z'])])
    ∧ renderTemplate (placeholder ['a']) ([(['b'], ['z'])] ++ [(['a'], placeholder ['b'])])
        ≠ renderTemplate (renderTemplate (placeholder ['a']) [(['a'], placeholder ['b'])])
            [(['b'], ['z'])]
    ∧ renderTemplate (placeholder ['a']) ([(['b'], ['z'])] ++ [(['a'], placeholder ['b'])])
        ≠ renderTemplate (placeholder ['a'])
            ([(['a'], placeholder ['b'])] ++ [(['b'], ['z'])]) := by
  exact ⟨by decide, by decide, by decide, by decide⟩

/-- **C2 (amended).** Rendering is compositional when the union is
enumerated with all of `A`'s entries before all of `B`'s entries:
`RenderTemplate(content, A ++ B) = RenderTemplate(RenderTemplate(content, A), B)`
for every content and all lists `A`, `B` (no disjointness needed); and
rendering is a function of the enumeration order, hence deterministic
for a fixed order. -/
theorem renderTemplate_append (content : List Char) (A B : List (List Char × List Char)) :
    renderTemplate content (A ++ B) = renderTemplate (renderTemplate content A) B := by
  by_cases hc : content = []
  · subst hc
    simp [renderTemplate]
  · by_cases hA : A = []
    · subst hA
      simp [renderTemplate, hc]
    · by_cases hB : B = []
      · subst hB
        simp [renderTemplate, hc, hA]
      · have hAB : A ++ B ≠ [] := by simp [hA]
        have L : renderTemplate content (A ++ B) =
            B.foldl (fun rendered kv => replaceAll rendered (placeholder kv.1) kv.2)
              (A.foldl (fun rendered kv => replaceAll rendered (placeholder kv.1) kv.2) content) := by
          simp [renderTemplate, hc, hAB, List.foldl_append]
        have mid : renderTemplate content A =
            A.foldl (fun rendered kv => replaceAll rendered (placeholder kv.1) kv.2) content := by
          simp [renderTemplate, hc, hA]
        by_cases hm : A.foldl (fun rendered kv => replaceAll rendered (placeholder kv.1) kv.2)
            content = []
        · rw [L, mid, hm, renderFold_nil]
          simp [renderTemplate]
        · rw [L, mid]
          simp [renderTemplate, hm, hB]

/-! ### Error taxonomy (pkg/pipeline/errors.go) -/

/-- A Go error chain, as far as `ClassifyToolError` can observe it:
a `pipeline.ToolError` (code plus optional wrapped error), the
`context.Canceled` / `context.DeadlineExceeded` sentinels, or any other
error with a message and an optional wrapped error (`fmt.Errorf`). -/
inductive GoError where
  | toolError (code : String) (err : Option GoError)
  | canceled
  | deadlineExceeded
  | errorf (msg : List Char) (wrapped : Option GoError)

/-- `strings.Contains(s, pat)` on character lists. -/
def strContains : List Char → List Char → Bool
  | [], pat => pat.isEmpty
  | c :: rest, pat => pat.isPrefixOf (c :: rest) || strContains rest pat

/-- `err.Error()`.  `ToolError.Error` returns the wrapped message when
present, else the code string. -/
def errMsg : GoError → List Char
  | GoError.toolError code none => code.toList
  | GoError.toolError _ (some e) => errMsg e
  | GoError.canceled => "context canceled".toList
  | GoError.deadlineExceeded => "context deadline exceeded".toList
  | GoError.errorf msg _ => msg

/-- `errors.As(err, &toolErr)`: the code of the first `ToolError` in the
unwrap chain, if any. -/
def asToolErrorCode : GoError → Option String
  | GoError.toolError code _ => some code
  | GoError.canceled => none
  | GoError.deadlineExceeded => none
  | GoError.errorf _ (some e) => asToolErrorCode e
  | GoError.errorf _ none => none

/-- `errors.Is(err, context.Canceled) || errors.Is(err, context.DeadlineExceeded)`. -/
def isCanceledOrDeadline : GoError → Bool
  | GoError.toolError _ (some e) => isCanceledOrDeadline e
  | GoError.toolError _ none => false
  | GoError.canceled => true
  | GoError.deadlineExceeded => true
  | GoError.errorf _ (some e) => isCanceledOrDeadline e
  | GoError.errorf _ none => false

/-- The `switch` over the lowercased message in `ClassifyToolError`. -/
def classifyByMessage (msg : List Char) : String :=
  if strContains msg "assert".toList then "assertion_fail"
  else if strContains msg "lint".toList then "lint_error"
  else if strContains msg "compile".toList || strContains msg "syntax".toList then "compile_error"
  else if strContains msg "timeout".toList || strContains msg "timed out".toList then "timeout"
  else if strContains msg "tool".toList && strContains msg "not found".toList then "tool_unavailable"
  else if strContains msg "unavailable".toList || strContains msg "connection refused".toList then
    "tool_unavailable"
  else if strContains msg "not found".toList || strContains msg "missing".toList then "input_missing"
  else "runtime_error"

/-- The part of `ClassifyToolError` after the `errors.As` check failed to
produce a non-empty code. -/
def classifyNonTool (e : GoError) : String :=
  if isCanceledOrDeadline e then "timeout"
  else classifyByMessage ((errMsg e).map Char.toLower)

/-- `ClassifyToolError` from pipeline/errors.go (`none` models a nil error). -/
def classifyToolError : Option GoError → String
  | none => ""
  | some e =>
    match asToolErrorCode e with
    | some c => if c ≠ "" then c else classifyNonTool e
    | none => classifyNonTool e

/-- Modelled from the spec: the ordered case-insensitive substring rules of
§4.8, as a first-match rule table. -/
def specScanRules : List ((List Char → Bool) × String) :=
  [ (fun msg => strContains msg "assert".toList, "assertion_fail"),
    (fun msg => strContains msg "lint".toList, "lint_error"),
    (fun msg => strContains msg "compile".toList || strContains msg "syntax".toList, "compile_error"),
    (fun msg => strContains msg "timeout".toList || strContains msg "timed out".toList, "timeout"),
    (fun msg => strContains msg "tool".toList && strContains msg "not found".toList,
      "tool_unavailable"),
    (fun msg => strContains msg "unavailable".toList || strContains msg "connection refused".toList,
      "tool_unavailable"),
    (fun msg => strContains msg "not found".toList || strContains msg "missing".toList,
      "input_missing") ]

/-- First matching rule wins; no rule matches means `runtime_error`. -/
def specFirstMatch : List ((List Char → Bool) × String) → List Char → String
  | [], _ => "runtime_error"
  | (p, code) :: rest, msg => if p msg then code else specFirstMatch rest msg

/-- Modelled from the spec: the full precedence of §4.8 — explicit non-empty
attached code, then cancellation sentinels → timeout, then the ordered
substring scan, then `runtime_error`; nil error → empty code. -/
def specClassifyToolError : Option GoError → String
  | none => ""
  | some e =>
    match asToolErrorCode e with
    | some c =>
      if c ≠ "" then c
      else if isCanceledOrDeadline e then "timeout"
      else specFirstMatch specScanRules ((errMsg e).map Char.toLower)
    | none =>
      if isCanceledOrDeadline e then "timeout"
      else specFirstMatch specScanRules ((errMsg e).map Char.toLower)

theorem classifyByMessage_eq_specScan (msg : List Char) :
    classifyByMessage msg = specFirstMatch specScanRules msg := rfl

/-- **C4.** `ClassifyToolError` decides every error value exactly by the
spec's precedence: attached non-empty code, cancellation sentinels,
ordered case-insensitive substring scan, `runtime_error` default, empty
code for nil. -/
theorem classifyToolError_follows_spec (err : Option GoError) :
    classifyToolError err = specClassifyToolError err := by
  match err with
  | none => rfl
  | some e =>
    simp only [classifyToolError, specClassifyToolError, classifyNonTool,
      classifyByMessage_eq_specScan]

/-! ### Fallback router (pkg/pipeline/graph_helpers.go) -/

/-- `makeFallbackRouter` from pipeline/graph_helpers.go.  The graph state is
reduced to the value of the `pipeline_error_code` slot: `none` models an
absent key or a non-string value (the failed type assertion), `some c`
a stored string `c`.  The fallback map is an association list; only key
membership matters to the router. -/
def makeFallbackRouter (fallback : List (String × String)) (stateCode : Option String) : String :=
  match stateCode with
  | some code =>
    if code ≠ "" then
      if (fallback.map Prod.fst).contains code then code
      else if (fallback.map Prod.fst).contains "default" then "default"
      else "success"
    else "success"
  | none => "success"

/-- **C5.** The fallback router returns the stored error code when the
fallback map contains it, else `"default"` when the map has a default
entry, else `"success"`; an empty or absent stored code always routes to
`"success"`. -/
theorem fallback_router_spec :
    (∀ (fb : List (String × String)) (code : String), code ≠ "" →
      (fb.map Prod.fst).contains code = true →
      makeFallbackRouter fb (some code) = code)
    ∧ (∀ (fb : List (String × String)) (code : String), code ≠ "" →
      (fb.map Prod.fst).contains code = false →
      (fb.map Prod.fst).contains "default" = true →
      makeFallbackRouter fb (some code) = "default")
    ∧ (∀ (fb : List (String × String)) (code : String), code ≠ "" →
      (fb.map Prod.fst).contains code = false →
      (fb.map Prod.fst).contains "default" = false →
      makeFallbackRouter fb (some code) = "success")
    ∧ (∀ fb : List (String × String),
      makeFallbackRouter fb none = "success" ∧ makeFallbackRouter fb (some "") = "success") := by
  refine ⟨?_, ?_, ?_, ?_⟩
  · intro fb code hne hmem
    simp only [makeFallbackRouter]
    rw [if_pos hne, if_pos hmem]
  · intro fb code hne hmem hdef
    simp only [makeFallbackRouter]
    rw [if_pos hne, if_neg (by rw [hmem]; decide), if_pos hdef]
  · intro fb code hne hmem hdef
    simp only [makeFallbackRouter]
    rw [if_pos hne, if_neg (by rw [hmem]; decide), if_neg (by rw [hdef]; decide)]
  · intro fb
    exact ⟨rfl, rfl⟩

/-- Witness for the C5 router characterisation at concrete inputs. -/
theorem fallback_router_spec_witness :
    makeFallbackRouter [("compile_error", "2.1")] (some "compile_error") = "compile_error"
    ∧ makeFallbackRouter [("default", "2.1")] (some "timeout") = "default"
    ∧ makeFallbackRouter [("compile_error", "2.1")] (some "timeout") = "success" := by
  exact ⟨fallback_router_spec.1 [("compile_error", "2.1")] "compile_error"
      (by decide) (by decide),
    fallback_router_spec.2.1 [("default", "2.1")] "timeout" (by decide) (by decide) (by decide),
    fallback_router_spec.2.2.1 [("compile_error", "2.1")] "timeout"
      (by decide) (by decide) (by decide)⟩

/-- Witness for C4 at a concrete error value. -/
theorem classifyToolError_follows_spec_witness :
    classifyToolError (some (GoError.errorf "Syntax error near token".toList none)) =
      specClassifyToolError (some (GoError.errorf "Syntax error near token".toList none)) :=
  classifyToolError_follows_spec _

/-- Witness for the amended C2 theorem at concrete inputs. -/
theorem renderTemplate_append_witness :
    renderTemplate (placeholder ['a'])
        ([(['a'], ['x'])] ++ [(['b'], ['z'])]) =
      renderTemplate (renderTemplate (placeholder ['a']) [(['a'], ['x'])]) [(['b'], ['z'])] :=
  renderTemplate_append (placeholder ['a']) [(['a'], ['x'])] [(['b'], ['z'])]

/-- Witness for C10 at a concrete summary string. -/
theorem format_summary_roundtrip_witness :
    (formatSummaryMessage "done".toList).role = Role.system
    ∧ summaryPrefixStr.IsPrefix (formatSummaryMessage "done".toList).content
    ∧ isSummaryMessage (formatSummaryMessage "done".toList).content = true :=
  format_summary_roundtrip "done".toList

/-! ### Middleware chain post hooks (pkg/flow, middleware chain file) -/

/-- An `AfterNodeCallback` reduced to what the combined post hook feeds it:
the running result and the node error; it returns a replacement result
and an error.  (`ctx`, `cbCtx` and `state` are passed through unchanged
by `WrapPostNode` and are dropped from the model.) -/
def PostCb (R E : Type) := Option R → Option E → Option R × Option E

/-- The loop of the combined callback returned by
`MiddlewareChain.WrapPostNode`: run each member hook in order; a member
returning a non-nil error aborts with `(nil, err)`; a member returning a
non-nil result replaces the running result. -/
def runPostChain {R E : Type} : List (PostCb R E) → Option R → Option E → Option R × Option E
  | [], result, _ => (result, none)
  | cb :: rest, result, nodeErr =>
    match cb result nodeErr with
    | (_, some e) => (none, some e)
    | (r, none) => runPostChain rest (if r.isSome then r else result) nodeErr

/-- Number of member hooks the combined callback actually invokes (the
instrumented observation of `runPostChain`). -/
def postHooksRun {R E : Type} : List (PostCb R E) → Option R → Option E → Nat
  | [], _, _ => 0
  | cb :: rest, result, nodeErr =>
    match cb result nodeErr with
    | (_, some _) => 1
    | (r, none) => 1 + postHooksRun rest (if r.isSome then r else result) nodeErr

/-- **C6 counterexample.** The combined post hook passes the node error to
*every* member hook; it only stops when a member *returns* a non-nil
error.  With two member hooks that return `(nil, nil)` regardless, a
non-nil node error still runs both, refuting "once the non-nil node
error is encountered, the remaining member post hooks are not run". -/
theorem c6_counterexample :
    postHooksRun
        [(fun _ _ => (none, none) : PostCb String String), fun _ _ => (none, none)]
        none (some "boom") = 2
    ∧ ¬ (postHooksRun
        [(fun _ _ => (none, none) : PostCb String String), fun _ _ => (none, none)]
        none (some "boom") ≤ 1) := by
  exact ⟨rfl, by decide⟩

/-- **C6 (amended).** The chain short-circuits on a member hook returning a
non-nil error: when the first member returns `some e`, the combined
callback returns `(nil, e)` and no further member hook runs.  In
particular a member that propagates a non-nil node error (as the
artifact-recording middleware does) stops the chain at itself. -/
theorem postChain_short_circuits_on_callback_error {R E : Type}
    (cb : PostCb R E) (rest : List (PostCb R E)) (result : Option R) (nodeErr : Option E)
    (e : E) (r : Option R) (h : cb result nodeErr = (r, some e)) :
    runPostChain (cb :: rest) result nodeErr = (none, some e)
    ∧ postHooksRun (cb :: rest) result nodeErr = 1 := by
  constructor
  · simp [runPostChain, h]
  · simp [postHooksRun, h]

/-- Witness for the amended C6 theorem: a node-error-propagating first hook
short-circuits past a second hook. -/
theorem postChain_short_circuit_witness :
    runPostChain
        [(fun _ ne => (none, ne) : PostCb String String), fun _ _ => (some "x", none)]
        none (some "boom") = (none, some "boom")
    ∧ postHooksRun
        [(fun _ ne => (none, ne) : PostCb String String), fun _ _ => (some "x", none)]
        none (some "boom") = 1 :=
  postChain_short_circuits_on_callback_error _ _ none (some "boom") "boom" none rfl

/-! ### Step model (pkg/pipeline, step artifacts file) and reference
validator (pkg/step, loader file) -/

/-- `Frontmatter` from the pipeline step-artifacts file.  `OutputField` is
its unmarshalled form `[]string`; `AdvanceMode` is a string. -/
structure Frontmatter where
  step : String
  name : String
  title : String
  description : String
  output : List String
  outputTemplate : String
  input : List String
  tools : List String
  mcp : List String
  next : String
  fallback : List (String × String)
  advance : String
  model : String
  maxOutputTokens : Int
  deriving Repr, DecidableEq

/-- `PromptFile` (= `StepDefinition`) from the pipeline step-artifacts file. -/
structure PromptFile where
  path : String
  frontmatter : Frontmatter
  body : List Char
  deriving Repr, DecidableEq

/-- `ValidationError` from the step loader file. -/
structure ValidationError where
  stepID : String
  field : String
  reference : String
  message : String
  deriving Repr, DecidableEq

/-- The per-step body of the `ValidateReferences` loop: records collected
for one step given the set of loaded ids. -/
def stepErrs (known : List String) (s : PromptFile) : List ValidationError :=
  let sid := s.frontmatter.step
  let next := s.frontmatter.next
  (if next ≠ "" then
    (if ¬ (known.contains next) then
      [{ stepID := sid, field := "next", reference := next,
         message := "target step does not exist" }]
     else [])
    ++ (if next = sid then
      [{ stepID := sid, field := "next", reference := next,
         message := "self-loop detected" }]
     else [])
   else [])
  ++ s.frontmatter.fallback.flatMap (fun ct =>
    if ct.2 ≠ "" ∧ ¬ (known.contains ct.2) then
      [{ stepID := sid, field := "fallback." ++ ct.1, reference := ct.2,
         message := "target step does not exist" }]
    else [])

/-- `ValidateReferences` from the step loader file. -/
def validateReferences (steps : List PromptFile) : List ValidationError :=
  let known := steps.map (fun s => s.frontmatter.step)
  steps.flatMap (stepErrs known)

theorem stepErrs_eq_nil (known : List String) (s : PromptFile) :
    stepErrs known s = [] ↔
      (s.frontmatter.next = "" ∨
        (known.contains s.frontmatter.next = true ∧ s.frontmatter.next ≠ s.frontmatter.step))
      ∧ ∀ ct ∈ s.frontmatter.fallback, ct.2 = "" ∨ known.contains ct.2 = true := by
  simp only [stepErrs, List.append_eq_nil, List.flatMap_eq_nil_iff]
  constructor
  · rintro ⟨h1, h2⟩
    constructor
    · by_cases hne : s.frontmatter.next = ""
      · exact Or.inl hne
      · rw [if_pos hne] at h1
        refine Or.inr ⟨?_, ?_⟩
        · by_cases hc : known.contains s.frontmatter.next = true
          · exact hc
          · rw [if_pos (by simpa using hc)] at h1
            simp at h1
        · intro hself
          rw [if_pos hself] at h1
          simp at h1
    · intro ct hct
      have := h2 ct hct
      by_cases hz : ct.2 = ""
      · exact Or.inl hz
      · refine Or.inr ?_
        by_cases hc : known.contains ct.2 = true
        · exact hc
        · rw [if_pos ⟨hz, by simpa using hc⟩] at this
          simp at this
  · rintro ⟨h1, h2⟩
    constructor
    · by_cases hne : s.frontmatter.next = ""
      · rw [if_neg (by simp [hne])]
      · rcases h1 with hne2 | ⟨hc, hself⟩
        · exact absurd hne2 hne
        · rw [if_pos hne, if_neg (by simpa using hc), if_neg hself]
          rfl
    · intro ct hct
      rcases h2 ct hct with hz | hc
      · rw [if_neg (by simp [hz])]
      · rw [if_neg (fun hand => hand.2 hc)]

/-- **C7.** `ValidateReferences` is total (a Lean function; it never
raises) and sound: it returns the empty list exactly when every
non-empty `next` resolves to a loaded step id other than the step
itself and every non-empty `fallback` target resolves to a loaded step
id (empty `next` produces no record); and every record it returns is
one of the three violation forms — dangling `next` ("target step does
not exist"), `next` self-loop, or dangling `fallback.<code>`. -/
theorem validateReferences_sound (steps : List PromptFile) :
    (validateReferences steps = [] ↔
      ∀ s ∈ steps,
        (s.frontmatter.next = "" ∨
          ((steps.map (fun t => t.frontmatter.step)).contains s.frontmatter.next = true ∧
            s.frontmatter.next ≠ s.frontmatter.step))
        ∧ ∀ ct ∈ s.frontmatter.fallback,
            ct.2 = "" ∨ (steps.map (fun t => t.frontmatter.step)).contains ct.2 = true)
    ∧ (∀ e ∈ validateReferences steps,
        (e.message = "target step does not exist" ∧
          (e.field = "next" ∨ ∃ code, e.field = "fallback." ++ code))
        ∨ (e.field = "next" ∧ e.message = "self-loop detected" ∧ e.reference = e.stepID)) := by
  constructor
  · rw [show validateReferences steps =
        steps.flatMap (stepErrs (steps.map (fun t => t.frontmatter.step))) from rfl,
      List.flatMap_eq_nil_iff]
    constructor
    · intro h s hs
      exact (stepErrs_eq_nil _ s).mp (h s hs)
    · intro h s hs
      exact (stepErrs_eq_nil _ s).mpr (h s hs)
  · intro e he
    rw [show validateReferences steps =
        steps.flatMap (stepErrs (steps.map (fun t => t.frontmatter.step))) from rfl] at he
    obtain ⟨s, hs, he2⟩ := List.mem_flatMap.mp he
    simp only [stepErrs, List.mem_append] at he2
    rcases he2 with hnext | hfb
    · split at hnext
      · rcases List.mem_append.mp hnext with h1 | h2
        · split at h1
          · simp only [List.mem_singleton] at h1
            subst h1
            exact Or.inl ⟨rfl, Or.inl rfl⟩
          · simp at h1
        · split at h2
          next hsid =>
            simp only [List.mem_singleton] at h2
            subst h2
            exact Or.inr ⟨rfl, rfl, hsid⟩
          next => simp at h2
      · simp at hnext
    · obtain ⟨ct, hct, he3⟩ := List.mem_flatMap.mp hfb
      split at he3
      · simp only [List.mem_singleton] at he3
        subst he3
        exact Or.inl ⟨rfl, Or.inr ⟨ct.1, rfl⟩⟩
      · simp at he3

/-- A minimal well-formed step set used by the C7 witness. -/
def sampleFM : Frontmatter :=
  { step := "1.1", name := "", title := "", description := "", output := ["docs/a.md"]
    outputTemplate := "", input := [], tools := [], mcp := [], next := ""
    fallback := [], advance := "auto", model := "", maxOutputTokens := 0 }

/-- Witness for C7: a terminal single step validates cleanly. -/
theorem validateReferences_sound_witness :
    validateReferences [{ path := "p", frontmatter := sampleFM, body := [] }] = [] :=
  (validateReferences_sound [{ path := "p", frontmatter := sampleFM, body := [] }]).1.mpr
    (by decide)

/-! ### Compressor (pkg/memory/compressor.go) -/

/-- `LLMCompressor` from memory/compressor.go: the policy configuration.
The `llmModel` and `counter` collaborators are external; the LLM call is
abstracted as an `Option`-valued summary result. -/
structure LLMCompressor where
  contextWindow : Int
  threshold : ℚ
  keepRecentTurns : Int
  deriving Repr, DecidableEq

/-- `NewLLMCompressor` from memory/compressor.go: coerces
`keepRecentTurns ≤ 0` to 3 and a threshold outside `(0, 1)` to `0.7`. -/
def newLLMCompressor (contextWindow : Int) (threshold : ℚ) (keepRecentTurns : Int) :
    LLMCompressor :=
  { contextWindow := contextWindow
    threshold := if threshold ≤ 0 ∨ 1 ≤ threshold then 7/10 else threshold
    keepRecentTurns := if keepRecentTurns ≤ 0 then 3 else keepRecentTurns }

/-- `LLMCompressor.compress` from memory/compressor.go.  `summaryRes`
abstracts `callSummarize` (`none` = LLM failure; the concatenated and
truncated conversation text only feeds that call, so it does not appear
here).  The `Bool` is true exactly when the function rebuilt the list
into a fresh slice — the observation `CompressIfNeeded`'s
length/pointer test makes.  Indices are in range for every compressor
built by `newLLMCompressor` (keepCount ≥ 2 and keepCount < len). -/
def compress (c : LLMCompressor) (msgs : List Message) (summaryRes : Option (List Char)) :
    Except Unit (List Message × Bool) :=
  if msgs.length ≤ 1 then .ok (msgs, false)
  else
    let systemMsgs := msgs.filter (fun m => m.role == Role.system)
    let conversationMsgs := msgs.filter (fun m => !(m.role == Role.system))
    let keepCount := c.keepRecentTurns * 2
    if (conversationMsgs.length : Int) ≤ keepCount then .ok (msgs, false)
    else
      match summaryRes with
      | none => .error ()
      | some summary =>
        let toKeep := conversationMsgs.drop (conversationMsgs.length - keepCount.toNat)
        .ok ((systemMsgs.filter (fun m => !(isSummaryMessage m.content)))
          ++ [formatSummaryMessage summary] ++ toKeep, true)

/-- `LLMCompressor.CompressIfNeeded` from memory/compressor.go.  The Go
`didCompress` test (`len differs, or non-empty with a different backing
array`) is exactly the rebuilt flag: the untouched branches return the
input slice itself, the rebuild allocates a fresh non-empty slice. -/
def compressIfNeeded (c : LLMCompressor) (msgs : List Message) (currentTokens : Int)
    (summaryRes : Option (List Char)) : List Message × Bool :=
  if c.contextWindow ≤ 0 ∨ currentTokens ≤ 0 then (msgs, false)
  else if (currentTokens : ℚ) / (c.contextWindow : ℚ) < c.threshold then (msgs, false)
  else
    match compress c msgs summaryRes with
    | .error _ => (msgs, false)
    | .ok (compressed, rebuilt) => (compressed, rebuilt)

theorem newLLMCompressor_keep_pos (cw : Int) (θ : ℚ) (k : Int) :
    1 ≤ (newLLMCompressor cw θ k).keepRecentTurns := by
  simp only [newLLMCompressor]
  split <;> omega


/-- **C3.** Full characterisation of `CompressIfNeeded` for every
compressor built by `NewLLMCompressor`: when the window and token count
are positive, the usage ratio reaches the threshold, the list has more
than `keepRecentTurns × 2` non-system messages and the LLM summary call
succeeds, the rebuilt list keeps (in order) every system message that
is not a prior summary, drops prior summary system messages, appends
the fresh summary message and ends with the `keepRecentTurns × 2` most
recent conversation messages (which is `min(keepRecentTurns × 2,
#conversation)` of them, that bound being below `#conversation` here),
with `didCompress = true`; in every other case — trigger not met, too
few conversation messages, or LLM failure — the original list is
returned unchanged with `didCompress = false`. -/
theorem compressIfNeeded_spec (cw : Int) (θ : ℚ) (k : Int) (msgs : List Message)
    (tok : Int) :
    (∀ s : List Char,
      compressIfNeeded (newLLMCompressor cw θ k) msgs tok (some s) =
        if 0 < cw ∧ 0 < tok
            ∧ (newLLMCompressor cw θ k).threshold ≤ (tok : ℚ) / (cw : ℚ)
            ∧ (newLLMCompressor cw θ k).keepRecentTurns * 2 <
                ((msgs.filter (fun m => !(m.role == Role.system))).length : Int) then
          (msgs.filter (fun m => m.role == Role.system && !(isSummaryMessage m.content))
            ++ [formatSummaryMessage s]
            ++ (msgs.filter (fun m => !(m.role == Role.system))).drop
                ((msgs.filter (fun m => !(m.role == Role.system))).length -
                  ((newLLMCompressor cw θ k).keepRecentTurns * 2).toNat), true)
        else (msgs, false))
    ∧ compressIfNeeded (newLLMCompressor cw θ k) msgs tok none = (msgs, false) := by
  have hk := newLLMCompressor_keep_pos cw θ k
  have hcw : (newLLMCompressor cw θ k).contextWindow = cw := rfl
  by_cases h1 : cw ≤ 0 ∨ tok ≤ 0
  · constructor
    · intro s
      rw [compressIfNeeded, if_pos (by rw [hcw]; exact h1)]
      rw [if_neg ?_]
      intro ⟨ha, hb, _, _⟩
      rcases h1 with h | h <;> omega
    · rw [compressIfNeeded, if_pos (by rw [hcw]; exact h1)]
  · push_neg at h1
    by_cases h2 : (tok : ℚ) / (cw : ℚ) < (newLLMCompressor cw θ k).threshold
    · constructor
      · intro s
        rw [compressIfNeeded, if_neg (by rw [hcw]; push_neg; omega),
          if_pos (by rw [hcw]; exact h2)]
        rw [if_neg ?_]
        intro ⟨_, _, hth, _⟩
        exact absurd hth (not_le.mpr h2)
      · rw [compressIfNeeded, if_neg (by rw [hcw]; push_neg; omega),
          if_pos (by rw [hcw]; exact h2)]
    · push_neg at h2
      by_cases h3 : ((msgs.filter (fun m => !(m.role == Role.system))).length : Int) ≤
          (newLLMCompressor cw θ k).keepRecentTurns * 2
      · have hcomp : ∀ sres, compress (newLLMCompressor cw θ k) msgs sres =
            .ok (msgs, false) := by
          intro sres
          rw [compress]
          by_cases hlen : msgs.length ≤ 1
          · rw [if_pos hlen]
          · rw [if_neg hlen, if_pos h3]
        constructor
        · intro s
          rw [compressIfNeeded, if_neg (by rw [hcw]; push_neg; omega),
            if_neg (by rw [hcw]; exact not_lt.mpr h2), hcomp (some s)]
          rw [if_neg ?_]
          intro ⟨_, _, _, hgt⟩
          exact absurd h3 (not_le.mpr hgt)
        · rw [compressIfNeeded, if_neg (by rw [hcw]; push_neg; omega),
            if_neg (by rw [hcw]; exact not_lt.mpr h2), hcomp none]
      · push_neg at h3
        have hlen : ¬ msgs.length ≤ 1 := by
          have hf : (msgs.filter (fun m => !(m.role == Role.system))).length ≤ msgs.length :=
            List.length_filter_le _ _
          omega
        constructor
        · intro s
          have hcomp : compress (newLLMCompressor cw θ k) msgs (some s) =
              .ok (((msgs.filter (fun m => m.role == Role.system)).filter
                  (fun m => !(isSummaryMessage m.content)))
                ++ [formatSummaryMessage s]
                ++ (msgs.filter (fun m => !(m.role == Role.system))).drop
                    ((msgs.filter (fun m => !(m.role == Role.system))).length -
                      ((newLLMCompressor cw θ k).keepRecentTurns * 2).toNat), true) := by
            rw [compress, if_neg hlen, if_neg (not_le.mpr h3)]
          rw [compressIfNeeded, if_neg (by rw [hcw]; push_neg; omega),
            if_neg (by rw [hcw]; exact not_lt.mpr h2), hcomp,
            if_pos ⟨h1.1, h1.2, h2, h3⟩, List.filter_filter]
          have hcomm : msgs.filter (fun a => !(isSummaryMessage a.content)
                && (a.role == Role.system))
              = msgs.filter (fun m => (m.role == Role.system)
                && !(isSummaryMessage m.content)) :=
            List.filter_congr (fun a _ => Bool.and_comm _ _)
          rw [hcomm]
        · have hcomp : compress (newLLMCompressor cw θ k) msgs none = .error () := by
            rw [compress, if_neg hlen, if_neg (not_le.mpr h3)]
          rw [compressIfNeeded, if_neg (by rw [hcw]; push_neg; omega),
            if_neg (by rw [hcw]; exact not_lt.mpr h2), hcomp]

/-! ### Prompt parser (pkg/pipeline, step artifacts file) -/

/-- `trimLeadingNewline` from the pipeline step-artifacts file. -/
def trimLeadingNewline (value : List Char) : List Char :=
  if "\r\n".toList.isPrefixOf value then value.drop 2
  else if "\n".toList.isPrefixOf value then value.drop 1
  else value

/-- `strings.SplitN(s, sep, 2)`: split around the first occurrence of
`sep`, returning `none` when `sep` does not occur (the length-1 result
in Go).  Only called with the non-empty separator `"---"`. -/
def splitFirst (sep : List Char) : List Char → Option (List Char × List Char)
  | [] => if sep.isEmpty then some ([], []) else none
  | c :: rest =>
    if sep.isPrefixOf (c :: rest) then some ([], (c :: rest).drop sep.length)
    else
      match splitFirst sep rest with
      | some (a, b) => some (c :: a, b)
      | none => none

/-- The two in-place normalisations `ParsePrompt` applies after a
successful decode: `advance` defaults to `"auto"` when empty, and
`tools` inherits `mcp` when `tools` is empty and `mcp` is not. -/
def normalizeFM (fm : Frontmatter) : Frontmatter :=
  let fm1 := if fm.advance = "" then { fm with advance := "auto" } else fm
  if fm1.tools = [] ∧ fm1.mcp ≠ [] then { fm1 with tools := fm1.mcp } else fm1

/-- `ParsePrompt` from the pipeline step-artifacts file.  The external YAML
library (`yaml.Unmarshal` into `Frontmatter`, including the
`OutputField` custom unmarshaller) is abstracted as `decode`
(`none` = decode error).  The Go guard returns the error when the
`"---"` prefix is missing; here the branches are flipped to positive
polarity, which is the same test. -/
def parsePrompt (decode : List Char → Option Frontmatter) (content : List Char) :
    Except String (Frontmatter × List Char) :=
  if "---".toList.isPrefixOf content then
    match splitFirst "---".toList (content.drop 3) with
    | none => .error "frontmatter end delimiter not found"
    | some (front, rest) =>
      match decode front with
      | none => .error "parse frontmatter"
      | some fm => .ok (normalizeFM fm, trimLeadingNewline rest)
  else .error "frontmatter delimiter not found"

/-- A YAML node as far as `OutputField.UnmarshalYAML` can observe it:
scalar, sequence, or anything else. -/
inductive YamlNode where
  | scalar (value : String)
  | seq (items : List YamlNode)
  | mapping

/-- `value.Decode(&list)` for `[]string`: succeeds on a sequence of
scalars. -/
def decodeStringList : YamlNode → Option (List String)
  | YamlNode.seq items =>
    items.mapM (fun n =>
      match n with
      | YamlNode.scalar v => some v
      | _ => none)
  | _ => none

/-- `OutputField.UnmarshalYAML` from the pipeline step-artifacts file:
a scalar node becomes a singleton list, otherwise decode as a list. -/
def outputFieldUnmarshalYAML (node : YamlNode) : Except Unit (List String) :=
  match node with
  | YamlNode.scalar v => .ok [v]
  | n =>
    match decodeStringList n with
    | some xs => .ok xs
    | none => .error ()

theorem splitFirst_append (sep : List Char) (s a b : List Char)
    (h : splitFirst sep s = some (a, b)) : s = a ++ sep ++ b := by
  induction s generalizing a b with
  | nil =>
    rw [splitFirst] at h
    by_cases hsep : sep.isEmpty
    · rw [if_pos hsep] at h
      simp only [Option.some.injEq, Prod.mk.injEq] at h
      obtain ⟨ha, hb⟩ := h
      subst ha; subst hb
      simp [List.isEmpty_iff.mp hsep]
    · rw [if_neg hsep] at h
      exact absurd h (by simp)
  | cons c rest ih =>
    rw [splitFirst] at h
    by_cases hpre : sep.isPrefixOf (c :: rest) = true
    · rw [if_pos hpre] at h
      simp only [Option.some.injEq, Prod.mk.injEq] at h
      obtain ⟨ha, hb⟩ := h
      subst ha
      obtain ⟨t, ht⟩ := List.isPrefixOf_iff_prefix.mp hpre
      subst hb
      rw [← ht, List.drop_left]
      simp
    · rw [if_neg hpre] at h
      cases hs2 : splitFirst sep rest with
      | none => rw [hs2] at h; exact absurd h (by simp)
      | some ab =>
        obtain ⟨a2, b2⟩ := ab
        rw [hs2] at h
        simp only [Option.some.injEq, Prod.mk.injEq] at h
        obtain ⟨ha, hb⟩ := h
        subst ha; subst hb
        have := ih a2 b2 hs2
        simp [this]

theorem normalizeFM_fields (fm0 : Frontmatter) :
    (normalizeFM fm0).advance = (if fm0.advance = "" then "auto" else fm0.advance)
    ∧ (normalizeFM fm0).tools =
        (if fm0.tools = [] ∧ fm0.mcp ≠ [] then fm0.mcp else fm0.tools)
    ∧ (normalizeFM fm0).mcp = fm0.mcp ∧ (normalizeFM fm0).output = fm0.output
    ∧ (normalizeFM fm0).next = fm0.next ∧ (normalizeFM fm0).step = fm0.step
    ∧ (normalizeFM fm0).fallback = fm0.fallback := by
  unfold normalizeFM
  by_cases ha : fm0.advance = "" <;> by_cases ht : fm0.tools = [] ∧ fm0.mcp ≠ [] <;>
    simp [ha, ht]

/-- **C9.** `ParsePrompt` errors exactly when the content does not begin
with `"---"`, has no second `"---"`, or the frontmatter fails YAML
decoding; on every successful parse the body is the text after the
second `"---"` with one leading newline (or CRLF) trimmed, `advance`
defaults to `"auto"`, `tools` inherits `mcp` when `tools` is empty and
`mcp` is not (other fields unchanged); the split really is at an
occurrence of `"---"`; and a scalar `output` node unmarshals to a
singleton list. -/
theorem parsePrompt_spec :
    (∀ (decode : List Char → Option Frontmatter) (content : List Char),
      (∃ msg, parsePrompt decode content = Except.error msg) ↔
        ("---".toList.isPrefixOf content = false
          ∨ splitFirst "---".toList (content.drop 3) = none
          ∨ ∃ front rest, splitFirst "---".toList (content.drop 3) = some (front, rest)
              ∧ decode front = none))
    ∧ (∀ (decode : List Char → Option Frontmatter) (content : List Char)
        (fm : Frontmatter) (body : List Char),
        parsePrompt decode content = Except.ok (fm, body) →
        ∃ front rest fm0,
          "---".toList.isPrefixOf content = true
          ∧ splitFirst "---".toList (content.drop 3) = some (front, rest)
          ∧ decode front = some fm0
          ∧ body = trimLeadingNewline rest
          ∧ fm.advance = (if fm0.advance = "" then "auto" else fm0.advance)
          ∧ fm.tools = (if fm0.tools = [] ∧ fm0.mcp ≠ [] then fm0.mcp else fm0.tools)
          ∧ fm.mcp = fm0.mcp ∧ fm.output = fm0.output ∧ fm.next = fm0.next
          ∧ fm.step = fm0.step ∧ fm.fallback = fm0.fallback)
    ∧ (∀ (sep s a b : List Char), splitFirst sep s = some (a, b) → s = a ++ sep ++ b)
    ∧ (∀ v, outputFieldUnmarshalYAML (YamlNode.scalar v) = Except.ok [v]) := by
  refine ⟨?_, ?_, splitFirst_append, fun v => rfl⟩
  · intro decode content
    by_cases hp : ("---".toList.isPrefixOf content) = true
    · cases hsf : splitFirst "---".toList (content.drop 3) with
      | none =>
        have hval : parsePrompt decode content =
            Except.error "frontmatter end delimiter not found" := by
          unfold parsePrompt
          rw [if_pos hp, hsf]
        constructor
        · intro _
          exact Or.inr (Or.inl rfl)
        · intro _
          exact ⟨_, hval⟩
      | some fr =>
        obtain ⟨front, rest⟩ := fr
        cases hd : decode front with
        | none =>
          have hval : parsePrompt decode content = Except.error "parse frontmatter" := by
            unfold parsePrompt
            rw [if_pos hp, hsf]
            show (match decode front with
              | none => Except.error "parse frontmatter"
              | some fm =>
                Except.ok (normalizeFM fm, trimLeadingNewline rest)) =
              Except.error "parse frontmatter"
            rw [hd]
          constructor
          · intro _
            exact Or.inr (Or.inr ⟨front, rest, rfl, hd⟩)
          · intro _
            exact ⟨_, hval⟩
        | some fm0 =>
          have hval : parsePrompt decode content =
              Except.ok (normalizeFM fm0, trimLeadingNewline rest) := by
            unfold parsePrompt
            rw [if_pos hp, hsf]
            show (match decode front with
              | none => Except.error "parse frontmatter"
              | some fm =>
                Except.ok (normalizeFM fm, trimLeadingNewline rest)) =
              Except.ok (normalizeFM fm0, trimLeadingNewline rest)
            rw [hd]
          constructor
          · rintro ⟨msg, hmsg⟩
            rw [hval] at hmsg
            exact absurd hmsg (by simp)
          · rintro (h | h | ⟨f2, r2, heq, hdec⟩)
            · rw [hp] at h
              exact absurd h (by simp)
            · exact absurd h (by simp)
            · simp only [Option.some.injEq, Prod.mk.injEq] at heq
              obtain ⟨hf, hr⟩ := heq
              rw [← hf, hd] at hdec
              exact absurd hdec (by simp)
    · have hval : parsePrompt decode content =
          Except.error "frontmatter delimiter not found" := by
        unfold parsePrompt
        rw [if_neg hp]
      constructor
      · intro _
        exact Or.inl (by rwa [Bool.not_eq_true] at hp)
      · intro _
        exact ⟨_, hval⟩
  · intro decode content fm body h
    unfold parsePrompt at h
    split at h
    · next hp =>
      split at h
      · exact absurd h (by simp)
      · next front rest hsf =>
        split at h
        · exact absurd h (by simp)
        · next fm0 hd =>
          simp only [Except.ok.injEq, Prod.mk.injEq] at h
          obtain ⟨hfm, hbody⟩ := h
          subst hfm
          refine ⟨front, rest, fm0, hp, hsf, hd, hbody.symm, ?_, ?_, ?_, ?_, ?_, ?_, ?_⟩
          · exact (normalizeFM_fields fm0).1
          · exact (normalizeFM_fields fm0).2.1
          · exact (normalizeFM_fields fm0).2.2.1
          · exact (normalizeFM_fields fm0).2.2.2.1
          · exact (normalizeFM_fields fm0).2.2.2.2.1
          · exact (normalizeFM_fields fm0).2.2.2.2.2.1
          · exact (normalizeFM_fields fm0).2.2.2.2.2.2
    · next hp =>
      exact absurd h (by simp)

/-- Witness for C9: a concrete prompt file parses successfully with the
expected body and normalised frontmatter, and a concrete split
decomposes around the separator. -/
theorem parsePrompt_spec_witness :
    (∃ front rest fm0,
      "---".toList.isPrefixOf "---\nstep: 1.1\n---\nbody".toList = true
      ∧ splitFirst "---".toList ("---\nstep: 1.1\n---\nbody".toList.drop 3) =
          some (front, rest)
      ∧ (fun _ : List Char => some sampleFM) front = some fm0
      ∧ "body".toList = trimLeadingNewline rest
      ∧ (normalizeFM sampleFM).advance = (if fm0.advance = "" then "auto" else fm0.advance)
      ∧ (normalizeFM sampleFM).tools =
          (if fm0.tools = [] ∧ fm0.mcp ≠ [] then fm0.mcp else fm0.tools)
      ∧ (normalizeFM sampleFM).mcp = fm0.mcp
      ∧ (normalizeFM sampleFM).output = fm0.output
      ∧ (normalizeFM sampleFM).next = fm0.next
      ∧ (normalizeFM sampleFM).step = fm0.step
      ∧ (normalizeFM sampleFM).fallback = fm0.fallback)
    ∧ "ab---cd".toList = "ab".toList ++ "---".toList ++ "cd".toList :=
  ⟨parsePrompt_spec.2.1 (fun _ => some sampleFM) "---\nstep: 1.1\n---\nbody".toList
      (normalizeFM sampleFM) "body".toList rfl,
    parsePrompt_spec.2.2.1 "---".toList "ab---cd".toList "ab".toList "cd".toList (by decide)⟩

/-! ### Artifact tracker (pkg/memory/tracker.go), with an explicit heap

The tracker stores `*ArtifactInfo` pointers in a map; `GetArtifact` and
`GetAll` copy the pointed-to struct into a fresh allocation before
returning it.  To state the aliasing claim, the embedding uses an
explicit allocation store: a memory is the list of allocated
`ArtifactInfo` cells, an address is an index, allocation appends, and a
caller mutating a returned value is a `writeMem` at the returned
address. -/

/-- `ArtifactInfo` from memory/tracker.go (`CreatedAt` mtime abstracted to
an integer timestamp). -/
structure ArtifactInfo where
  stepID : String
  title : String
  filePath : String
  status : String
  lineCount : Int
  createdAt : Int
  deriving Repr, DecidableEq

/-- The allocation store: every `ArtifactInfo` cell ever allocated, in
allocation order; an address is an index into it. -/
abbrev Mem : Type := List ArtifactInfo

/-- `FileTracker.data`: the map `stepID → *ArtifactInfo`, as an association
list from step id to cell address. -/
structure FileTracker where
  data : List (String × Nat)
  deriving Repr, DecidableEq

/-- Go map assignment `t.data[stepID] = ptr`. -/
def upsert : List (String × Nat) → String → Nat → List (String × Nat)
  | [], k, v => [(k, v)]
  | (k2, v2) :: rest, k, v =>
    if k2 = k then (k, v) :: rest else (k2, v2) :: upsert rest k v

/-- `FileTracker.RecordCompleted` from memory/tracker.go.  `statOk` is the
outcome of the `fs.Stat` existence/non-directory check and `info` the
record built from the stat result and line count; on success the code
allocates a fresh `&ArtifactInfo{...}` and stores its address. -/
def recordCompleted (m : Mem) (t : FileTracker) (sid : String) (info : ArtifactInfo)
    (statOk : Bool) : Mem × FileTracker × Bool :=
  if statOk then (m ++ [info], { data := upsert t.data sid (List.length m) }, true)
  else (m, t, false)

/-- Dereference the tracker's record for `sid`: the value a caller's read
observes. -/
def readArt (m : Mem) (t : FileTracker) (sid : String) : Option ArtifactInfo :=
  (t.data.lookup sid).bind (fun a => (m : List ArtifactInfo)[a]?)

/-- `FileTracker.GetArtifact` from memory/tracker.go: copy the struct into
a fresh cell (`cp := *a; return &cp`) and hand back its address. -/
def getArtifact (m : Mem) (t : FileTracker) (sid : String) : Mem × Option Nat :=
  match t.data.lookup sid with
  | some addr =>
    match (m : List ArtifactInfo)[addr]? with
    | some v => (m ++ [v], some (List.length m))
    | none => (m, none)
  | none => (m, none)

/-- The loop of `FileTracker.GetAll`: one fresh copy per entry, collected
into a fresh result map. -/
def getAllGo (m : Mem) : List (String × Nat) → Mem × List (String × Nat)
  | [] => (m, [])
  | (k, addr) :: rest =>
    match (m : List ArtifactInfo)[addr]? with
    | some v =>
      let out := getAllGo (m ++ [v]) rest
      (out.1, (k, List.length m) :: out.2)
    | none => getAllGo m rest

/-- `FileTracker.GetAll` from memory/tracker.go. -/
def getAllT (m : Mem) (t : FileTracker) : Mem × List (String × Nat) :=
  getAllGo m t.data

/-- A caller mutating the cell at `a` (what Go's `*p = v` does to a
returned pointer). -/
def writeMem (m : Mem) (a : Nat) (v : ArtifactInfo) : Mem :=
  (m : List ArtifactInfo).set a v

/-- Heap well-formedness: every address the tracker holds is allocated. -/
def trackerWF (m : Mem) (t : FileTracker) : Prop :=
  ∀ p ∈ t.data, p.2 < (m : List ArtifactInfo).length

theorem lookup_mem : ∀ {l : List (String × Nat)} {k : String} {v : Nat},
    l.lookup k = some v → (k, v) ∈ l := by
  intro l
  induction l with
  | nil => intro k v h; simp [List.lookup] at h
  | cons p rest ih =>
    intro k v h
    obtain ⟨a, b⟩ := p
    by_cases hk : (k == a) = true
    · simp only [List.lookup_cons, hk] at h
      simp only [Option.some.injEq] at h
      subst h
      have hka : k = a := by simpa using hk
      subst hka
      exact List.mem_cons_self _ _
    · have hk2 : (k == a) = false := by simpa using hk
      simp only [List.lookup_cons, hk2] at h
      exact List.mem_cons_of_mem _ (ih h)

theorem upsert_mem : ∀ {l : List (String × Nat)} {k : String} {v : Nat}
    {p : String × Nat}, p ∈ upsert l k v → p = (k, v) ∨ p ∈ l := by
  intro l
  induction l with
  | nil =>
    intro k v p h
    simp [upsert] at h
    exact Or.inl h
  | cons q rest ih =>
    intro k v p h
    obtain ⟨k2, v2⟩ := q
    rw [upsert] at h
    by_cases hk : k2 = k
    · rw [if_pos hk] at h
      rcases List.mem_cons.mp h with h1 | h1
      · exact Or.inl h1
      · exact Or.inr (List.mem_cons_of_mem _ h1)
    · rw [if_neg hk] at h
      rcases List.mem_cons.mp h with h1 | h1
      · exact Or.inr (h1 ▸ List.mem_cons_self _ _)
      · rcases ih h1 with h2 | h2
        · exact Or.inl h2
        · exact Or.inr (List.mem_cons_of_mem _ h2)

theorem getAllGo_preserves (entries : List (String × Nat)) :
    ∀ (m : Mem),
      (List.length m ≤ (getAllGo m entries).1.length)
      ∧ ∀ a, a < List.length m → ((getAllGo m entries).1)[a]? = m[a]? := by
  induction entries with
  | nil =>
    intro m
    exact ⟨le_refl _, fun a ha => rfl⟩
  | cons p rest ih =>
    intro m
    obtain ⟨k, addr⟩ := p
    cases hq : (m : List ArtifactInfo)[addr]? with
    | none =>
      have heq : getAllGo m ((k, addr) :: rest) = getAllGo m rest := by
        rw [getAllGo, hq]
      rw [heq]
      exact ih m
    | some v =>
      have heq : getAllGo m ((k, addr) :: rest) =
          ((getAllGo (m ++ [v]) rest).1,
            (k, List.length m) :: (getAllGo (m ++ [v]) rest).2) := by
        rw [getAllGo, hq]
      rw [heq]
      constructor
      · have h1 := (ih (m ++ [v])).1
        simp only [List.length_append, List.length_singleton] at h1
        show List.length m ≤ (getAllGo (m ++ [v]) rest).1.length
        omega
      · intro a ha
        have h2 := (ih (m ++ [v])).2 a
          (by simp only [List.length_append, List.length_singleton]; omega)
        show ((getAllGo (m ++ [v]) rest).1)[a]? = m[a]?
        rw [h2]
        exact List.getElem?_append_left ha

theorem getAllGo_fresh (entries : List (String × Nat)) :
    ∀ (m : Mem) (k : String) (addr : Nat), (k, addr) ∈ (getAllGo m entries).2 →
      List.length m ≤ addr := by
  induction entries with
  | nil =>
    intro m k addr h
    simp [getAllGo] at h
  | cons p rest ih =>
    intro m k addr h
    obtain ⟨k2, a2⟩ := p
    cases hq : (m : List ArtifactInfo)[a2]? with
    | none =>
      have heq : getAllGo m ((k2, a2) :: rest) = getAllGo m rest := by
        rw [getAllGo, hq]
      rw [heq] at h
      exact ih m k addr h
    | some v =>
      have heq : getAllGo m ((k2, a2) :: rest) =
          ((getAllGo (m ++ [v]) rest).1,
            (k2, List.length m) :: (getAllGo (m ++ [v]) rest).2) := by
        rw [getAllGo, hq]
      rw [heq] at h
      rcases List.mem_cons.mp h with h1 | h1
      · have : addr = List.length m := congrArg Prod.snd h1
        omega
      · have h2 := ih (m ++ [v]) k addr h1
        simp only [List.length_append, List.length_singleton] at h2
        omega

/-- **C8.** The tracker's getters return fresh copies and never leak its
internal cells: `RecordCompleted` keeps the heap well formed;
`GetArtifact` extends the heap, hands back a freshly allocated address
holding the looked-up value, and writing any value through that address
leaves every subsequent tracker read (`GetArtifact`/`GetAll` both read
through `readArt`) unchanged; every address `GetAll` returns is
likewise fresh, and writing through any of them leaves every
subsequent tracker read unchanged. -/
theorem tracker_returns_copies :
    (∀ (m : Mem) (t : FileTracker) (sid : String) (info : ArtifactInfo) (ok : Bool),
      trackerWF m t →
      trackerWF (recordCompleted m t sid info ok).1 (recordCompleted m t sid info ok).2.1)
    ∧ (∀ (m : Mem) (t : FileTracker) (sid : String), trackerWF m t →
        trackerWF (getArtifact m t sid).1 t
        ∧ (∀ addr, (getArtifact m t sid).2 = some addr →
            ((getArtifact m t sid).1)[addr]? = readArt m t sid
            ∧ ∀ (v : ArtifactInfo) (sid2 : String),
                readArt (writeMem (getArtifact m t sid).1 addr v) t sid2 =
                  readArt m t sid2))
    ∧ (∀ (m : Mem) (t : FileTracker), trackerWF m t →
        trackerWF (getAllT m t).1 t
        ∧ ∀ (k : String) (addr : Nat), (k, addr) ∈ (getAllT m t).2 →
            ∀ (v : ArtifactInfo) (sid2 : String),
              readArt (writeMem (getAllT m t).1 addr v) t sid2 = readArt m t sid2) := by
  refine ⟨?_, ?_, ?_⟩
  · intro m t sid info ok hwf
    cases ok with
    | false => exact hwf
    | true =>
      intro p hp
      simp only [recordCompleted, if_pos] at hp ⊢
      rcases upsert_mem hp with h1 | h1
      · subst h1
        simp
      · have := hwf p h1
        simp only [List.length_append, List.length_singleton]
        omega
  · intro m t sid hwf
    cases hl : t.data.lookup sid with
    | none =>
      have heq : getArtifact m t sid = (m, none) := by
        unfold getArtifact
        rw [hl]
      rw [heq]
      exact ⟨hwf, fun addr habs => absurd habs (by simp)⟩
    | some a =>
      have ha : a < List.length m := hwf (sid, a) (lookup_mem hl)
      cases hq : (m : List ArtifactInfo)[a]? with
      | none =>
        rw [List.getElem?_eq_none_iff] at hq
        omega
      | some v =>
        have heq : getArtifact m t sid = (m ++ [v], some (List.length m)) := by
          unfold getArtifact
          rw [hl]
          show (match (m : List ArtifactInfo)[a]? with
            | some v => (m ++ [v], some (List.length m))
            | none => (m, none)) = (m ++ [v], some (List.length m))
          rw [hq]
        rw [heq]
        constructor
        · intro p hp
          have := hwf p hp
          simp only [List.length_append, List.length_singleton]
          omega
        · intro addr haddr
          simp only [Option.some.injEq] at haddr
          subst haddr
          constructor
          · rw [List.getElem?_concat_length]
            rw [readArt, hl]
            exact hq.symm
          · intro v2 sid2
            cases hl2 : t.data.lookup sid2 with
            | none =>
              rw [readArt, readArt, hl2]
              rfl
            | some a2 =>
              have ha2 : a2 < List.length m := hwf (sid2, a2) (lookup_mem hl2)
              rw [readArt, readArt, hl2]
              show ((writeMem (m ++ [v]) (List.length m) v2) :
                  List ArtifactInfo)[a2]? = (m : List ArtifactInfo)[a2]?
              rw [writeMem, List.getElem?_set_ne (by omega)]
              exact List.getElem?_append_left ha2
  · intro m t hwf
    constructor
    · intro p hp
      have := hwf p hp
      have hle := (getAllGo_preserves t.data m).1
      calc p.2 < List.length m := this
        _ ≤ _ := hle
    · intro k addr hmem v sid2
      have hfresh := getAllGo_fresh t.data m k addr hmem
      cases hl2 : t.data.lookup sid2 with
      | none =>
        rw [readArt, readArt, hl2]
        rfl
      | some a2 =>
        have ha2 : a2 < List.length m := hwf (sid2, a2) (lookup_mem hl2)
        rw [readArt, readArt, hl2]
        show ((writeMem (getAllT m t).1 addr v) : List ArtifactInfo)[a2]? =
          (m : List ArtifactInfo)[a2]?
        rw [writeMem, List.getElem?_set_ne (by omega)]
        exact (getAllGo_preserves t.data m).2 a2 ha2

/-- A one-record tracker heap used by the C8 witness. -/
def wInfo : ArtifactInfo :=
  { stepID := "1.1", title := "设计大纲", filePath := "docs/a.md",
    status := "completed", lineCount := 3, createdAt := 0 }

/-- The tracker pointing at the single allocated cell. -/
def wTracker : FileTracker := { data := [("1.1", 0)] }

/-- Witness for C8 at a concrete one-record tracker. -/
theorem tracker_returns_copies_witness :
    trackerWF (getArtifact [wInfo] wTracker "1.1").1 wTracker
    ∧ (∀ addr, (getArtifact [wInfo] wTracker "1.1").2 = some addr →
        ((getArtifact [wInfo] wTracker "1.1").1)[addr]? = readArt [wInfo] wTracker "1.1"
        ∧ ∀ (v : ArtifactInfo) (sid2 : String),
            readArt (writeMem (getArtifact [wInfo] wTracker "1.1").1 addr v) wTracker sid2 =
              readArt [wInfo] wTracker sid2) :=
  tracker_returns_copies.2.1 [wInfo] wTracker "1.1" (by
    intro p hp
    simp only [wTracker, List.mem_singleton] at hp
    subst hp
    decide)
